import Mathlib

/-!
# Gateway: prefix routing and request forwarding

A shallow embedding of `pkg/service/service.go` of the gateway: the route
lookup `lookupTargetURL`, the request entry point `handleUrl` and the
forwarder `proxy`, together with the properties of these functions.

Go strings are byte sequences, `len` counts bytes and the `strings` helpers
compare bytes, so a string is modelled as a list of bytes.
-/

namespace Gateway

/-- A Go `string`: an immutable sequence of bytes. -/
abbrev GoString := List UInt8

/-- The bytes (UTF-8) of a string literal of the source. -/
def bytes (s : String) : GoString := s.toList.flatMap String.utf8EncodeChar

/-- The byte `'/'`. -/
def slash : UInt8 := 47

/-- Go `strings.HasPrefix(s, pre)`:
`len(s) >= len(pre) && s[:len(pre)] == pre`. -/
def HasPrefix (s pre : GoString) : Bool :=
  decide (pre.length ≤ s.length) && (s.take pre.length == pre)

/-- Go `strings.CutPrefix(s, pre)`: `(s, false)` when `s` does not start with
`pre`, else `(s[len(pre):], true)`. -/
def CutPrefix (s pre : GoString) : GoString × Bool :=
  if !HasPrefix s pre then (s, false) else (s.drop pre.length, true)

/-- One element of `gatewayCfg.Routes`: the fields of the configuration entry
that `lookupTargetURL` reads. -/
structure Route where
  Prefix : GoString
  Url : GoString
deriving DecidableEq, Repr

/-- Lines 104-107 of `service.go`: the sub-path gets a leading `'/'` when it
does not already start with one. -/
def joinSubPath (subPath : GoString) : GoString :=
  if !HasPrefix subPath [slash] then [slash] ++ subPath else subPath

/-- The body of the `for` loop of `lookupTargetURL`, on the pair of local
variables `(prefix, target)`. -/
def lookupStep (path : GoString) (st : GoString × GoString) (elem : Route) :
    GoString × GoString :=
  let cut := CutPrefix path elem.Prefix
  if cut.2 && decide (st.1.length < elem.Prefix.length) then
    (elem.Prefix, elem.Url ++ joinSubPath cut.1)
  else st

/-- The loop of `lookupTargetURL` started from given values of the local
variables. -/
def lookupLoop (path : GoString) (st : GoString × GoString) (routes : List Route) :
    GoString × GoString :=
  routes.foldl (lookupStep path) st

/-- The function `lookupTargetURL` of `service.go`; the global route table
`gatewayCfg.Routes` is passed explicitly. -/
def lookupTargetURL (routes : List Route) (path : GoString) : GoString :=
  (lookupLoop path ([], []) routes).2

/-- The value the loop assigns to `target` when it selects route `r`:
`elem.Url + subPath` for the sub-path left after `r.Prefix`. -/
def routeTarget (path : GoString) (r : Route) : GoString :=
  r.Url ++ joinSubPath (path.drop r.Prefix.length)

/-! ## Requests, responses and the forwarder -/

/-- The fields of Go's `net/url.URL`, as carried by an inbound request. -/
structure URL where
  Scheme : GoString
  Opaque : GoString
  User : Option (GoString × Option GoString)
  Host : GoString
  Path : GoString
  RawPath : GoString
  OmitHost : Bool
  ForceQuery : Bool
  RawQuery : GoString
  Fragment : GoString
  RawFragment : GoString
deriving DecidableEq, Repr

/-- The data of Go's `net/http.Request` that travels with a proxied request. -/
structure Request where
  Method : GoString
  URL : URL
  Proto : GoString
  Header : List (GoString × List GoString)
  Body : GoString
  Host : GoString
  Form : List (GoString × List GoString)
  Trailer : List (GoString × List GoString)
  RemoteAddr : GoString
  RequestURI : GoString
deriving DecidableEq, Repr

/-- The fields of the parsed target `*url.URL` that `proxy` reads. -/
structure Target where
  Scheme : GoString
  Host : GoString
  Path : GoString
deriving DecidableEq, Repr

/-- What the handler reads from `*gin.Context`: the request and the address
`c.ClientIP()` reports. -/
structure Context where
  Request : Request
  ClientIP : GoString
deriving DecidableEq, Repr

/-- A value attached to a log line. The elapsed time of a request is a
clock reading and is not modelled. -/
inductive LogValue where
  | str (s : GoString)
  | url (u : URL)
  | target (t : Target)
  | seconds
deriving DecidableEq, Repr

/-- The observable actions of the handler, in program order: `slog.Info`,
`slog.Error`, `c.String(code, body)`, and `ServeHTTP(c.Writer, c.Request)` of
the reverse proxy built for a target (whose `Director` is `Director target`). -/
inductive Event where
  | logInfo (msg : GoString) (attrs : List (GoString × LogValue))
  | logError (msg : GoString) (attrs : List (GoString × LogValue))
  | respond (status : Nat) (body : GoString)
  | serveHTTP (target : Target) (request : Request)
deriving DecidableEq, Repr

/-- The `Director` closure that `proxy` installs on the reverse proxy. -/
def Director (target : Target) (request : Request) : Request :=
  { request with
    URL := { request.URL with
      Scheme := target.Scheme
      Host := target.Host
      Path := target.Path } }

/-! ## The library call `url.Parse`

`proxy` only branches on whether `url.Parse` reports an error and reads the
scheme, host and path of its result. The model below follows `net/url`'s
`Parse`, `parse`, `getScheme` and `unescape` for those three fields. -/

/-- The byte of an ASCII character. -/
def byte (c : Char) : UInt8 := UInt8.ofNat c.toNat

/-- The test `lo <= c && c <= hi` on bytes. -/
def inRange (lo hi : Char) (c : UInt8) : Bool :=
  decide (lo.toNat ≤ c.toNat) && decide (c.toNat ≤ hi.toNat)

/-- Go `strings.Cut(s, sep)` for a one-byte separator: the text before and
after the first `sep`, and whether `sep` occurs. -/
def CutByte : GoString → UInt8 → GoString × GoString × Bool
  | [], _ => ([], [], false)
  | c :: cs, sep =>
    if c == sep then ([], cs, true)
    else
      let r := CutByte cs sep
      (c :: r.1, r.2.1, r.2.2)

/-- Go `stringContainsCTLByte`: some byte is below `' '` or is `0x7f`. -/
def stringContainsCTLByte (s : GoString) : Bool :=
  s.any (fun b => decide (b.toNat < 32) || b == 127)

/-- The loop of Go `getScheme` at index `i`, `cs` being `rawURL[i:]`; `none`
is the error "missing protocol scheme". -/
def getSchemeFrom (rawURL : GoString) : Nat → GoString → Option (GoString × GoString)
  | _, [] => some ([], rawURL)
  | i, c :: cs =>
    if inRange 'a' 'z' c || inRange 'A' 'Z' c then getSchemeFrom rawURL (i + 1) cs
    else if inRange '0' '9' c || c == byte '+' || c == byte '-' || c == byte '.' then
      if i == 0 then some ([], rawURL) else getSchemeFrom rawURL (i + 1) cs
    else if c == byte ':' then
      if i == 0 then none else some (rawURL.take i, rawURL.drop (i + 1))
    else some ([], rawURL)

/-- Go `getScheme(rawURL)`: the scheme and the rest, or an error. -/
def getScheme (rawURL : GoString) : Option (GoString × GoString) :=
  getSchemeFrom rawURL 0 rawURL

/-- Go `strings.ToLower` on the ASCII bytes a scheme consists of. -/
def toLowerASCII (s : GoString) : GoString :=
  s.map (fun c => if inRange 'A' 'Z' c then c + 32 else c)

/-- Go `ishex`. -/
def ishex (c : UInt8) : Bool :=
  inRange '0' '9' c || inRange 'a' 'f' c || inRange 'A' 'F' c

/-- Go `unhex`. -/
def unhex (c : UInt8) : Nat :=
  if inRange '0' '9' c then c.toNat - ('0').toNat
  else if inRange 'a' 'f' c then c.toNat - ('a').toNat + 10
  else if inRange 'A' 'F' c then c.toNat - ('A').toNat + 10
  else 0

/-- Go `unescape(s, mode)` in the path and fragment modes: every `%` must be
followed by two hex digits, which it decodes; other bytes are kept. -/
def unescape : GoString → Option GoString
  | [] => some []
  | c :: cs =>
    if c == byte '%' then
      match cs with
      | h₁ :: h₂ :: rest =>
        if ishex h₁ && ishex h₂ then
          (unescape rest).map (fun t => UInt8.ofNat (unhex h₁ * 16 + unhex h₂) :: t)
        else none
      | _ => none
    else (unescape cs).map (fun t => c :: t)

/-- Go `validOptionalPort` applied to `host[i:]` for the last `':'` of `host`,
as `parseHost` does when the host is not an IP literal. -/
def validLastPort (host : GoString) : Bool :=
  !host.contains (byte ':') ||
    (host.reverse.takeWhile (fun c => c != byte ':')).all (inRange '0' '9')

/-- Go `parseAuthority` on an authority of the shape `host[:port]` written
with letters, digits, `-`, `.`, `_`, `~` and `:`, where it returns the
authority itself as the host once the port is checked. Authorities with user
information, IP literals, other punctuation or percent-escapes are not
modelled and are rejected here. -/
def parseAuthority (authority : GoString) : Option GoString :=
  if authority.all (fun c => inRange 'a' 'z' c || inRange 'A' 'Z' c || inRange '0' '9' c ||
        c == byte '-' || c == byte '.' || c == byte '_' || c == byte '~' || c == byte ':')
      && validLastPort authority then
    some authority
  else none

/-- Go `parse(rawURL, false)` of `net/url`, for the scheme, host and path of
the result. -/
def parseNoFragment (rawURL : GoString) : Option Target :=
  if stringContainsCTLByte rawURL then none
  else if rawURL == bytes "*" then some ⟨[], [], bytes "*"⟩
  else
    match getScheme rawURL with
    | none => none
    | some (scheme, rest₀) =>
      let scheme := toLowerASCII scheme
      let rest :=
        if rest₀.getLast? == some (byte '?') && rest₀.count (byte '?') == 1 then rest₀.dropLast
        else (CutByte rest₀ (byte '?')).1
      if !HasPrefix rest (bytes "/") && scheme != [] then some ⟨scheme, [], []⟩
      else if !HasPrefix rest (bytes "/") &&
          (CutByte rest (byte '/')).1.contains (byte ':') then none
      else if (scheme != [] || !HasPrefix rest (bytes "///")) && HasPrefix rest (bytes "//") then
        let authority := (rest.drop 2).takeWhile (fun c => c != byte '/')
        let rest := (rest.drop 2).dropWhile (fun c => c != byte '/')
        match parseAuthority authority with
        | none => none
        | some host => (unescape rest).map (fun path => ⟨scheme, host, path⟩)
      else (unescape rest).map (fun path => ⟨scheme, [], path⟩)

/-- Go `url.Parse(rawURL)`: the URL before `#` is parsed, then a non-empty
fragment is unescaped; `none` stands for a non-nil error. -/
def urlParse (rawURL : GoString) : Option Target :=
  let cut := CutByte rawURL (byte '#')
  match parseNoFragment cut.1 with
  | none => none
  | some url =>
    if cut.2.1 == [] then some url
    else (unescape cut.2.1).map (fun _ => url)

/-- Go `(*URL).IsAbs` on a parse result: the URL was parsed and its scheme is
not empty. -/
def isAbsolute (parsed : Option Target) : Bool :=
  match parsed with
  | none => false
  | some t => t.Scheme != []

/-- The function `proxy` of `service.go`. The library call `url.Parse` is the
parameter `parse`, `none` standing for a non-nil `err`. -/
def proxy (parse : GoString → Option Target) (targetURL : GoString) (c : Context) :
    List Event :=
  match parse targetURL with
  | none =>
    [ Event.respond 500 (bytes "Invalid target URL"),
      Event.logError (bytes "Invalid target URL")
        [(bytes "client", LogValue.str c.ClientIP), (bytes "url", LogValue.str targetURL)] ]
  | some target =>
    [ Event.logInfo (bytes "Forwarding request") [(bytes "target", LogValue.target target)],
      Event.serveHTTP target c.Request ]

/-- The function `handleUrl` of `service.go`, as the list of its observable
actions. -/
def handleUrl (routes : List Route) (parse : GoString → Option Target) (c : Context) :
    List Event :=
  let path := c.Request.URL.Path
  let targetURL := lookupTargetURL routes path
  Event.logInfo (bytes "New request")
      [(bytes "client", LogValue.str c.ClientIP), (bytes "context", LogValue.url c.Request.URL)] ::
    (if targetURL == [] then
      [ Event.respond 404 (bytes "Not Found"),
        Event.logError (bytes "URL mapping not found")
          [(bytes "client", LogValue.str c.ClientIP), (bytes "path", LogValue.str path)] ]
    else
      proxy parse targetURL c ++
        [Event.logInfo (bytes "Request served") [(bytes "duration", LogValue.seconds)]])

/-! ## Expected traces and sample data -/

/-- The actions of `proxy` when `url.Parse` reports an error. -/
def invalidTargetEvents (targetURL : GoString) (c : Context) : List Event :=
  [ Event.respond 500 (bytes "Invalid target URL"),
    Event.logError (bytes "Invalid target URL")
      [(bytes "client", LogValue.str c.ClientIP), (bytes "url", LogValue.str targetURL)] ]

/-- The actions of `proxy` when `url.Parse` returns `target`. -/
def forwardEvents (target : Target) (c : Context) : List Event :=
  [ Event.logInfo (bytes "Forwarding request") [(bytes "target", LogValue.target target)],
    Event.serveHTTP target c.Request ]

/-- The actions of `handleUrl` on a routing miss. -/
def notFoundEvents (c : Context) : List Event :=
  [ Event.logInfo (bytes "New request")
      [(bytes "client", LogValue.str c.ClientIP), (bytes "context", LogValue.url c.Request.URL)],
    Event.respond 404 (bytes "Not Found"),
    Event.logError (bytes "URL mapping not found")
      [(bytes "client", LogValue.str c.ClientIP),
        (bytes "path", LogValue.str c.Request.URL.Path)] ]

/-- A request for `path` with query `page=2`, for the concrete checks. -/
def sampleRequest (path : GoString) : Request :=
  { Method := bytes "GET"
    URL :=
      { Scheme := [], Opaque := [], User := none, Host := [], Path := path, RawPath := [],
        OmitHost := false, ForceQuery := false, RawQuery := bytes "page=2", Fragment := [],
        RawFragment := [] }
    Proto := bytes "HTTP/1.1"
    Header := [(bytes "Accept", [bytes "*/*"])]
    Body := []
    Host := bytes "gateway.local"
    Form := []
    Trailer := []
    RemoteAddr := bytes "10.0.0.7:5050"
    RequestURI := path ++ bytes "?page=2" }

/-- The handler context of `sampleRequest path`. -/
def sampleContext (path : GoString) : Context :=
  { Request := sampleRequest path, ClientIP := bytes "10.0.0.7" }

/-! ## The string helpers -/

theorem HasPrefix_iff (s pre : GoString) : HasPrefix s pre = true ↔ pre <+: s := by
  unfold HasPrefix
  rw [Bool.and_eq_true, decide_eq_true_iff, beq_iff_eq]
  constructor
  · rintro ⟨_, h⟩
    exact List.prefix_iff_eq_take.mpr h.symm
  · intro h
    exact ⟨h.length_le, (List.prefix_iff_eq_take.mp h).symm⟩

theorem CutPrefix_snd (s pre : GoString) : (CutPrefix s pre).2 = HasPrefix s pre := by
  unfold CutPrefix
  cases h : HasPrefix s pre <;> simp

theorem CutPrefix_fst_of_prefix (s pre : GoString) (h : HasPrefix s pre = true) :
    (CutPrefix s pre).1 = s.drop pre.length := by
  unfold CutPrefix
  simp [h]

theorem joinSubPath_cons (sub : GoString) : ∃ t, joinSubPath sub = slash :: t := by
  unfold joinSubPath
  cases h : HasPrefix sub [slash]
  · exact ⟨sub, by simp⟩
  · have hp := (HasPrefix_iff sub [slash]).mp h
    obtain ⟨t, ht⟩ := hp
    exact ⟨t, by simp [← ht]⟩

theorem joinSubPath_ne_nil (sub : GoString) : joinSubPath sub ≠ [] := by
  obtain ⟨t, ht⟩ := joinSubPath_cons sub
  simp [ht]

theorem lookupStep_of_hit (path : GoString) (st : GoString × GoString) (r : Route)
    (hm : r.Prefix <+: path) (hlt : st.1.length < r.Prefix.length) :
    lookupStep path st r = (r.Prefix, routeTarget path r) := by
  have hp : HasPrefix path r.Prefix = true := (HasPrefix_iff _ _).mpr hm
  unfold lookupStep routeTarget
  simp only [CutPrefix_snd, hp, CutPrefix_fst_of_prefix _ _ hp, Bool.true_and,
    decide_eq_true_eq, hlt, if_true]

theorem lookupStep_of_miss (path : GoString) (st : GoString × GoString) (r : Route)
    (h : r.Prefix <+: path → r.Prefix.length ≤ st.1.length) :
    lookupStep path st r = st := by
  unfold lookupStep
  simp only [CutPrefix_snd]
  split
  · rename_i hc
    rw [Bool.and_eq_true, decide_eq_true_iff, HasPrefix_iff] at hc
    exact absurd (h hc.1) (by omega)
  · rfl

theorem lookupLoop_cons (path : GoString) (st : GoString × GoString) (r : Route)
    (rs : List Route) :
    lookupLoop path st (r :: rs) = lookupLoop path (lookupStep path st r) rs := rfl

theorem lookupLoop_append (path : GoString) (st : GoString × GoString) (l₁ l₂ : List Route) :
    lookupLoop path st (l₁ ++ l₂) = lookupLoop path (lookupLoop path st l₁) l₂ := by
  unfold lookupLoop
  exact List.foldl_append _ _ _ _

/-- The loop either keeps the initial state, when no matching route is strictly
longer than the initial prefix, or ends on the first matching route of
maximal prefix length. -/
theorem lookupLoop_spec (path : GoString) (routes : List Route) :
    ∀ st : GoString × GoString,
      (lookupLoop path st routes = st ∧
        ∀ r ∈ routes, r.Prefix <+: path → r.Prefix.length ≤ st.1.length) ∨
      ∃ l₁ r l₂, routes = l₁ ++ r :: l₂ ∧ r.Prefix <+: path ∧
        st.1.length < r.Prefix.length ∧
        (∀ q ∈ l₁, q.Prefix <+: path → q.Prefix.length < r.Prefix.length) ∧
        (∀ q ∈ l₂, q.Prefix <+: path → q.Prefix.length ≤ r.Prefix.length) ∧
        lookupLoop path st routes = (r.Prefix, routeTarget path r) := by
  induction routes with
  | nil =>
    intro st
    exact Or.inl ⟨rfl, by simp⟩
  | cons a rest ih =>
    intro st
    rw [lookupLoop_cons]
    by_cases hit : a.Prefix <+: path ∧ st.1.length < a.Prefix.length
    · rw [lookupStep_of_hit path st a hit.1 hit.2]
      rcases ih (a.Prefix, routeTarget path a) with ⟨hres, hall⟩ | ⟨l₁, r, l₂, hsplit, hm, hlt, h1, h2, hres⟩
      · exact Or.inr ⟨[], a, rest, rfl, hit.1, hit.2, by simp, hall, hres⟩
      · refine Or.inr ⟨a :: l₁, r, l₂, by simp [hsplit], hm, lt_trans hit.2 hlt, ?_, h2, hres⟩
        intro q hq hqm
        rcases List.mem_cons.mp hq with rfl | hq
        · exact hlt
        · exact h1 q hq hqm
    · have hmiss : a.Prefix <+: path → a.Prefix.length ≤ st.1.length := by
        intro hm
        by_contra hc
        exact hit ⟨hm, by omega⟩
      rw [lookupStep_of_miss path st a hmiss]
      rcases ih st with ⟨hres, hall⟩ | ⟨l₁, r, l₂, hsplit, hm, hlt, h1, h2, hres⟩
      · refine Or.inl ⟨hres, ?_⟩
        intro q hq hqm
        rcases List.mem_cons.mp hq with rfl | hq
        · exact hmiss hqm
        · exact hall q hq hqm
      · refine Or.inr ⟨a :: l₁, r, l₂, by simp [hsplit], hm, hlt, ?_, h2, hres⟩
        intro q hq hqm
        rcases List.mem_cons.mp hq with rfl | hq
        · exact lt_of_le_of_lt (hmiss hqm) hlt
        · exact h1 q hq hqm

/-! ## Consequences of the loop specification -/

theorem lookupStep_fst_le (path : GoString) (st : GoString × GoString) (r : Route) :
    st.1.length ≤ (lookupStep path st r).1.length := by
  by_cases hit : r.Prefix <+: path ∧ st.1.length < r.Prefix.length
  · rw [lookupStep_of_hit path st r hit.1 hit.2]
    exact le_of_lt hit.2
  · rw [lookupStep_of_miss path st r]
    intro hm
    by_contra hc
    exact hit ⟨hm, by omega⟩

theorem lookupStep_fst_ge (path : GoString) (st : GoString × GoString) (r : Route)
    (hm : r.Prefix <+: path) : r.Prefix.length ≤ (lookupStep path st r).1.length := by
  by_cases hlt : st.1.length < r.Prefix.length
  · rw [lookupStep_of_hit path st r hm hlt]
  · rw [lookupStep_of_miss path st r (fun _ => by omega)]
    omega

theorem lookupLoop_fst_le (path : GoString) (routes : List Route) :
    ∀ st : GoString × GoString, st.1.length ≤ (lookupLoop path st routes).1.length := by
  induction routes with
  | nil => intro st; exact le_refl _
  | cons a rest ih =>
    intro st
    rw [lookupLoop_cons]
    exact le_trans (lookupStep_fst_le path st a) (ih _)

/-- The two outcomes of `lookupTargetURL`: the empty string when every matching
route has an empty prefix, else the target of the first matching route of
maximal prefix length. -/
theorem lookupTargetURL_cases (routes : List Route) (path : GoString) :
    (lookupTargetURL routes path = [] ∧ ∀ r ∈ routes, r.Prefix <+: path → r.Prefix = []) ∨
    ∃ l₁ r l₂, routes = l₁ ++ r :: l₂ ∧ r.Prefix ≠ [] ∧ r.Prefix <+: path ∧
      (∀ q ∈ l₁, q.Prefix <+: path → q.Prefix.length < r.Prefix.length) ∧
      (∀ q ∈ routes, q.Prefix <+: path → q.Prefix.length ≤ r.Prefix.length) ∧
      lookupTargetURL routes path = routeTarget path r := by
  unfold lookupTargetURL
  rcases lookupLoop_spec path routes ([], []) with ⟨hres, hall⟩ | ⟨l₁, r, l₂, hsplit, hm, hlt, h1, h2, hres⟩
  · refine Or.inl ⟨by rw [hres], ?_⟩
    intro r hr hm
    have := hall r hr hm
    exact List.length_eq_zero.mp (by simpa using this)
  · refine Or.inr ⟨l₁, r, l₂, hsplit, ?_, hm, h1, ?_, by rw [hres]⟩
    · intro h0
      rw [h0] at hlt
      simp at hlt
    · intro q hq hqm
      rw [hsplit] at hq
      rcases List.mem_append.mp hq with hq | hq
      · exact le_of_lt (h1 q hq hqm)
      · rcases List.mem_cons.mp hq with rfl | hq
        · exact le_refl _
        · exact h2 q hq hqm

theorem routeTarget_eq (path : GoString) (r : Route) (hm : r.Prefix <+: path) :
    ∃ sub, r.Prefix ++ sub = path ∧
      routeTarget path r = r.Url ++ (if sub.head? = some slash then sub else slash :: sub) := by
  obtain ⟨sub, hsub⟩ := hm
  refine ⟨sub, hsub, ?_⟩
  unfold routeTarget joinSubPath
  have hdrop : path.drop r.Prefix.length = sub := by
    rw [← hsub]; simp
  rw [hdrop]
  cases sub with
  | nil => simp [HasPrefix]
  | cons c cs =>
    by_cases hc : c = slash
    · subst hc; simp [HasPrefix]
    · have : ¬ (slash = c) := fun h => hc h.symm
      simp [HasPrefix, hc, this]

theorem prefix_eq_of_length_eq {a b path : GoString} (ha : a <+: path) (hb : b <+: path)
    (hlen : a.length = b.length) : a = b :=
  (List.prefix_of_prefix_length_le ha hb (le_of_eq hlen)).eq_of_length hlen

/-! ## Longest-prefix resolution -/

/-- C1. When some route with a non-empty prefix matches `path`,
`lookupTargetURL` returns `r.Url ++ sub` for a matching route `r` whose prefix
is at least as long as that of every matching route, `sub` being `path`
without `r.Prefix`, with `'/'` put in front when it does not start with one. -/
theorem lookupTargetURL_longest_match (routes : List Route) (path : GoString)
    (h : ∃ r ∈ routes, r.Prefix ≠ [] ∧ r.Prefix <+: path) :
    ∃ r ∈ routes, r.Prefix <+: path ∧
      (∀ q ∈ routes, q.Prefix <+: path → q.Prefix.length ≤ r.Prefix.length) ∧
      ∃ sub, r.Prefix ++ sub = path ∧
        lookupTargetURL routes path =
          r.Url ++ (if sub.head? = some slash then sub else slash :: sub) := by
  rcases lookupTargetURL_cases routes path with ⟨_, hall⟩ | ⟨l₁, r, l₂, hsplit, _, hm, _, hmax, hres⟩
  · obtain ⟨r, hr, hne, hm⟩ := h
    exact absurd (hall r hr hm) hne
  · refine ⟨r, by simp [hsplit], hm, hmax, ?_⟩
    obtain ⟨sub, hsub, htarget⟩ := routeTarget_eq path r hm
    exact ⟨sub, hsub, by rw [hres, htarget]⟩

/-- C1, on the table `/api -> http://a`, `/api/v2 -> http://b`: the path
`/api/v2/items` resolves to `http://b/items` and `/api/items` to
`http://a/items`. -/
theorem lookupTargetURL_longest_match_witness :
    (∃ r ∈ [Route.mk (bytes "/api") (bytes "http://a"),
          Route.mk (bytes "/api/v2") (bytes "http://b")],
      r.Prefix <+: bytes "/api/v2/items" ∧
      (∀ q ∈ [Route.mk (bytes "/api") (bytes "http://a"),
          Route.mk (bytes "/api/v2") (bytes "http://b")],
        q.Prefix <+: bytes "/api/v2/items" → q.Prefix.length ≤ r.Prefix.length) ∧
      ∃ sub, r.Prefix ++ sub = bytes "/api/v2/items" ∧
        lookupTargetURL [Route.mk (bytes "/api") (bytes "http://a"),
            Route.mk (bytes "/api/v2") (bytes "http://b")] (bytes "/api/v2/items") =
          r.Url ++ (if sub.head? = some slash then sub else slash :: sub)) ∧
    lookupTargetURL [Route.mk (bytes "/api") (bytes "http://a"),
        Route.mk (bytes "/api/v2") (bytes "http://b")] (bytes "/api/v2/items") =
      bytes "http://b/items" ∧
    lookupTargetURL [Route.mk (bytes "/api") (bytes "http://a"),
        Route.mk (bytes "/api/v2") (bytes "http://b")] (bytes "/api/items") =
      bytes "http://a/items" :=
  ⟨lookupTargetURL_longest_match _ _
      ⟨Route.mk (bytes "/api/v2") (bytes "http://b"), by decide, by decide,
        ⟨bytes "/items", by decide⟩⟩,
    by decide, by decide⟩

/-! ## Routing miss -/

/-- C2. When no route's prefix is a prefix of the request path,
`lookupTargetURL` returns the empty string, and `handleUrl` answers 404 with
body `Not Found` and performs no action of `proxy`: no forwarding and no 500
response. -/
theorem handleUrl_routing_miss (routes : List Route) (parse : GoString → Option Target)
    (c : Context) (h : ∀ r ∈ routes, ¬ r.Prefix <+: c.Request.URL.Path) :
    lookupTargetURL routes c.Request.URL.Path = [] ∧
    handleUrl routes parse c = notFoundEvents c ∧
    (∀ t q, Event.serveHTTP t q ∉ handleUrl routes parse c) ∧
    (∀ e ∈ handleUrl routes parse c, ∀ targetURL, e ∉ proxy parse targetURL c) := by
  have hnil : lookupTargetURL routes c.Request.URL.Path = [] := by
    rcases lookupTargetURL_cases routes c.Request.URL.Path with ⟨hres, _⟩ | ⟨l₁, r, l₂, hsplit, _, hm, _⟩
    · exact hres
    · exact absurd hm (h r (by simp [hsplit]))
  have hev : handleUrl routes parse c = notFoundEvents c := by
    unfold handleUrl notFoundEvents
    simp [hnil]
  refine ⟨hnil, hev, ?_, ?_⟩
  · intro t q
    rw [hev]
    simp [notFoundEvents]
  · intro e he targetURL
    rw [hev] at he
    have h1 : bytes "New request" ≠ bytes "Forwarding request" := by decide
    have h2 : bytes "URL mapping not found" ≠ bytes "Invalid target URL" := by decide
    unfold proxy
    simp only [notFoundEvents, List.mem_cons, List.mem_singleton, List.not_mem_nil, or_false] at he
    rcases he with rfl | rfl | rfl <;> cases parse targetURL <;> simp [h1, h2]

/-- C2, on the table `/api -> http://a` and the path `/other`. -/
theorem handleUrl_routing_miss_witness :
    (∀ r ∈ [Route.mk (bytes "/api") (bytes "http://a")],
      ¬ r.Prefix <+: (sampleContext (bytes "/other")).Request.URL.Path) ∧
    lookupTargetURL [Route.mk (bytes "/api") (bytes "http://a")]
      (sampleContext (bytes "/other")).Request.URL.Path = [] ∧
    handleUrl [Route.mk (bytes "/api") (bytes "http://a")] urlParse
      (sampleContext (bytes "/other")) = notFoundEvents (sampleContext (bytes "/other")) :=
  have h : ∀ r ∈ [Route.mk (bytes "/api") (bytes "http://a")],
      ¬ r.Prefix <+: (sampleContext (bytes "/other")).Request.URL.Path := by decide
  ⟨h, (handleUrl_routing_miss _ urlParse _ h).1, (handleUrl_routing_miss _ urlParse _ h).2.1⟩

/-! ## The separator at the join -/

/-- C3 as stated fails: `/api -> http://a` is the only route and matches
`/api//x`, and the text appended to `http://a` is `//x`, which starts with two
separators. -/
theorem lookupTargetURL_double_separator :
    Route.mk (bytes "/api") (bytes "http://a") ∈ [Route.mk (bytes "/api") (bytes "http://a")] ∧
    (Route.mk (bytes "/api") (bytes "http://a")).Prefix ≠ [] ∧
    (Route.mk (bytes "/api") (bytes "http://a")).Prefix <+: bytes "/api//x" ∧
    (∀ q ∈ [Route.mk (bytes "/api") (bytes "http://a")],
      q.Prefix <+: bytes "/api//x" → q = Route.mk (bytes "/api") (bytes "http://a")) ∧
    lookupTargetURL [Route.mk (bytes "/api") (bytes "http://a")] (bytes "/api//x") =
      (Route.mk (bytes "/api") (bytes "http://a")).Url ++ bytes "//x" ∧
    [slash, slash] <+: bytes "//x" := by
  decide

/-- C3, amended. When `path` matches exactly one route `r`, with a non-empty
prefix, the text `sub` appended to `r.Url` starts with `'/'`, and it starts
with `//` exactly when the raw remainder of `path` after `r.Prefix` does. -/
theorem lookupTargetURL_join_separator (routes : List Route) (path : GoString) (r : Route)
    (hr : r ∈ routes) (hne : r.Prefix ≠ []) (hm : r.Prefix <+: path)
    (huniq : ∀ q ∈ routes, q.Prefix <+: path → q = r) :
    ∃ rem sub, r.Prefix ++ rem = path ∧ lookupTargetURL routes path = r.Url ++ sub ∧
      sub.head? = some slash ∧ ([slash, slash] <+: sub ↔ [slash, slash] <+: rem) := by
  rcases lookupTargetURL_cases routes path with ⟨_, hall⟩ | ⟨l₁, r', l₂, hsplit, _, hm', _, _, hres⟩
  · exact absurd (hall r hr hm) hne
  · have hrr : r' = r := huniq r' (by simp [hsplit]) hm'
    subst hrr
    obtain ⟨rem, hrem, htarget⟩ := routeTarget_eq path r' hm
    refine ⟨rem, _, hrem, by rw [hres, htarget], ?_, ?_⟩
    · cases rem with
      | nil => simp
      | cons c cs =>
        by_cases hc : c = slash
        · simp [hc]
        · simp [hc]
    · cases rem with
      | nil => simp [List.prefix_iff_eq_take]
      | cons c cs =>
        by_cases hc : c = slash
        · simp [hc]
        · have hc' : ¬ slash = c := fun h => hc h.symm
          simp [hc, hc', List.cons_prefix_cons]

/-- C3, amended, on the table `/api/ -> http://a` (a prefix ending with the
separator) and the path `/api/x`. -/
theorem lookupTargetURL_join_separator_witness :
    ∃ rem sub, (Route.mk (bytes "/api/") (bytes "http://a")).Prefix ++ rem = bytes "/api/x" ∧
      lookupTargetURL [Route.mk (bytes "/api/") (bytes "http://a")] (bytes "/api/x") =
        (Route.mk (bytes "/api/") (bytes "http://a")).Url ++ sub ∧
      sub.head? = some slash ∧ ([slash, slash] <+: sub ↔ [slash, slash] <+: rem) :=
  lookupTargetURL_join_separator [Route.mk (bytes "/api/") (bytes "http://a")] (bytes "/api/x")
    (Route.mk (bytes "/api/") (bytes "http://a")) (by decide) (by decide) (by decide) (by decide)

/-! ## Ties and declaration order -/

/-- C4. When two routes of the table carry the same prefix, removing the later
one changes no result; and whenever a route with non-empty prefix matches, the
target comes from the first matching route of maximal prefix length: every
matching route before it is strictly shorter. -/
theorem lookupTargetURL_first_duplicate_wins (l₁ l₂ l₃ : List Route) (a b : Route)
    (path : GoString) (hab : a.Prefix = b.Prefix) :
    lookupTargetURL (l₁ ++ a :: (l₂ ++ b :: l₃)) path =
      lookupTargetURL (l₁ ++ a :: (l₂ ++ l₃)) path ∧
    ((∃ r ∈ l₁ ++ a :: (l₂ ++ b :: l₃), r.Prefix ≠ [] ∧ r.Prefix <+: path) →
      ∃ k₁ r k₂, l₁ ++ a :: (l₂ ++ b :: l₃) = k₁ ++ r :: k₂ ∧ r.Prefix <+: path ∧
        (∀ q ∈ k₁, q.Prefix <+: path → q.Prefix.length < r.Prefix.length) ∧
        (∀ q ∈ l₁ ++ a :: (l₂ ++ b :: l₃), q.Prefix <+: path →
          q.Prefix.length ≤ r.Prefix.length) ∧
        lookupTargetURL (l₁ ++ a :: (l₂ ++ b :: l₃)) path = routeTarget path r) := by
  constructor
  · unfold lookupTargetURL
    rw [lookupLoop_append, lookupLoop_cons, lookupLoop_append, lookupLoop_cons,
      lookupLoop_append, lookupLoop_cons, lookupLoop_append]
    have hskip : ∀ st : GoString × GoString,
        lookupStep path (lookupLoop path (lookupStep path st a) l₂) b =
          lookupLoop path (lookupStep path st a) l₂ := by
      intro st
      apply lookupStep_of_miss
      intro hm
      rw [← hab] at hm ⊢
      exact le_trans (lookupStep_fst_ge path st a hm) (lookupLoop_fst_le path l₂ _)
    rw [hskip]
  · rintro ⟨r, hr, hne, hm⟩
    rcases lookupTargetURL_cases (l₁ ++ a :: (l₂ ++ b :: l₃)) path with
      ⟨_, hall⟩ | ⟨k₁, r', k₂, hsplit, _, hm', hfirst, hmax, hres⟩
    · exact absurd (hall r hr hm) hne
    · exact ⟨k₁, r', k₂, hsplit, hm', hfirst, hmax, hres⟩

/-- C4, on a table where `/api` is declared twice: the first declaration
supplies the target, with or without the second. -/
theorem lookupTargetURL_first_duplicate_wins_witness :
    lookupTargetURL ([] ++ Route.mk (bytes "/api") (bytes "http://first") ::
        ([Route.mk (bytes "/x") (bytes "http://x")] ++
          Route.mk (bytes "/api") (bytes "http://second") :: [])) (bytes "/api/items") =
      lookupTargetURL ([] ++ Route.mk (bytes "/api") (bytes "http://first") ::
        ([Route.mk (bytes "/x") (bytes "http://x")] ++ [])) (bytes "/api/items") ∧
    lookupTargetURL [Route.mk (bytes "/api") (bytes "http://first"),
        Route.mk (bytes "/x") (bytes "http://x"),
        Route.mk (bytes "/api") (bytes "http://second")] (bytes "/api/items") =
      bytes "http://first/items" :=
  ⟨(lookupTargetURL_first_duplicate_wins [] [Route.mk (bytes "/x") (bytes "http://x")] []
      (Route.mk (bytes "/api") (bytes "http://first"))
      (Route.mk (bytes "/api") (bytes "http://second")) (bytes "/api/items") rfl).1,
    by decide⟩

/-- C5. Two tables that are permutations of one another, with pairwise
distinct prefixes, resolve every path to the same result. -/
theorem lookupTargetURL_perm (t₁ t₂ : List Route) (path : GoString)
    (hperm : t₁.Perm t₂) (hdistinct : (t₁.map Route.Prefix).Nodup) :
    lookupTargetURL t₁ path = lookupTargetURL t₂ path := by
  rcases lookupTargetURL_cases t₁ path with
    ⟨hres₁, hall₁⟩ | ⟨k₁, r₁, k₂, hsplit₁, hne₁, hm₁, _, hmax₁, hres₁⟩ <;>
  rcases lookupTargetURL_cases t₂ path with
    ⟨hres₂, hall₂⟩ | ⟨j₁, r₂, j₂, hsplit₂, hne₂, hm₂, _, hmax₂, hres₂⟩
  · rw [hres₁, hres₂]
  · have hr₂ : r₂ ∈ t₂ := by simp [hsplit₂]
    exact absurd (hall₁ r₂ (hperm.mem_iff.mpr hr₂) hm₂) hne₂
  · have hr₁ : r₁ ∈ t₁ := by simp [hsplit₁]
    exact absurd (hall₂ r₁ (hperm.mem_iff.mp hr₁) hm₁) hne₁
  · have hr₁ : r₁ ∈ t₁ := by simp [hsplit₁]
    have hr₂ : r₂ ∈ t₂ := by simp [hsplit₂]
    have hr₂' : r₂ ∈ t₁ := hperm.mem_iff.mpr hr₂
    have hlen : r₁.Prefix.length = r₂.Prefix.length :=
      le_antisymm (hmax₂ r₁ (hperm.mem_iff.mp hr₁) hm₁) (hmax₁ r₂ hr₂' hm₂)
    have hpre : r₁.Prefix = r₂.Prefix := prefix_eq_of_length_eq hm₁ hm₂ hlen
    have hrr : r₁ = r₂ := List.inj_on_of_nodup_map hdistinct hr₁ hr₂' hpre
    rw [hres₁, hres₂, hrr]

/-- C5, on the table `/api`, `/api/v2` and its reversal. -/
theorem lookupTargetURL_perm_witness :
    lookupTargetURL [Route.mk (bytes "/api") (bytes "http://a"),
        Route.mk (bytes "/api/v2") (bytes "http://b")] (bytes "/api/v2/items") =
      lookupTargetURL [Route.mk (bytes "/api/v2") (bytes "http://b"),
        Route.mk (bytes "/api") (bytes "http://a")] (bytes "/api/v2/items") :=
  lookupTargetURL_perm _ _ _ (List.Perm.swap _ _ []) (by decide)

/-! ## Empty remainder -/

/-- C6. For a non-empty `path` equal to some route's prefix, `lookupTargetURL`
returns `r.Url ++ "/"` for the first route `r` of the table whose prefix is
`path`. -/
theorem lookupTargetURL_exact_match (routes : List Route) (path : GoString) (r : Route)
    (hne : path ≠ []) (hfirst : routes.find? (fun q => q.Prefix == path) = some r) :
    lookupTargetURL routes path = r.Url ++ [slash] := by
  have hr : r ∈ routes := List.mem_of_find?_eq_some hfirst
  have hrp : r.Prefix = path := by
    have := List.find?_some hfirst
    simpa using this
  rcases lookupTargetURL_cases routes path with
    ⟨_, hall⟩ | ⟨k₁, r', k₂, hsplit, _, hm', hbefore, hmax, hres⟩
  · exact absurd (hall r hr (by rw [hrp])) (by rw [hrp]; exact hne)
  · have hle : path.length ≤ r'.Prefix.length := by
      have := hmax r hr (by rw [hrp])
      rwa [hrp] at this
    have hrp' : r'.Prefix = path := hm'.eq_of_length_le hle
    have hk : ∀ q ∈ k₁, ¬ ((fun q : Route => q.Prefix == path) q = true) := by
      intro q hq hqp
      have hqp' : q.Prefix = path := by simpa using hqp
      have := hbefore q hq (by rw [hqp'])
      rw [hqp', hrp'] at this
      exact lt_irrefl _ this
    have hfind : routes.find? (fun q => q.Prefix == path) = some r' := by
      rw [hsplit, List.find?_append, List.find?_eq_none.mpr hk]
      simp [hrp']
    have hrr : r' = r := Option.some.inj (hfind.symm.trans hfirst)
    rw [hres, ← hrr]
    unfold routeTarget joinSubPath
    rw [hrp']
    simp [HasPrefix]

/-- C6, on the route `/svc -> https://backend.local/root` and the path `/svc`:
the result is `https://backend.local/root/`. -/
theorem lookupTargetURL_exact_match_witness :
    lookupTargetURL [Route.mk (bytes "/svc") (bytes "https://backend.local/root")]
        (bytes "/svc") =
      (Route.mk (bytes "/svc") (bytes "https://backend.local/root")).Url ++ [slash] ∧
    lookupTargetURL [Route.mk (bytes "/svc") (bytes "https://backend.local/root")]
        (bytes "/svc") = bytes "https://backend.local/root/" :=
  ⟨lookupTargetURL_exact_match _ _ _ (by decide) (by decide), by decide⟩

/-! ## Malformed targets -/

/-- C7 as stated fails: the route `/api` with an empty `Url` resolves
`/api/items` to `/items`, which `url.Parse` accepts as a relative reference
with an empty scheme, so it is not an absolute URL; `proxy` answers no 500 and
calls `ServeHTTP`. -/
theorem proxy_forwards_relative_target :
    lookupTargetURL [Route.mk (bytes "/api") []] (bytes "/api/items") = bytes "/items" ∧
    urlParse (bytes "/items") = some (Target.mk [] [] (bytes "/items")) ∧
    isAbsolute (urlParse (bytes "/items")) = false ∧
    proxy urlParse (bytes "/items") (sampleContext (bytes "/api/items")) =
      [ Event.logInfo (bytes "Forwarding request")
          [(bytes "target", LogValue.target (Target.mk [] [] (bytes "/items")))],
        Event.serveHTTP (Target.mk [] [] (bytes "/items")) (sampleRequest (bytes "/api/items")) ] ∧
    (∀ body, Event.respond 500 body ∉
      proxy urlParse (bytes "/items") (sampleContext (bytes "/api/items"))) := by
  have hparse : urlParse (bytes "/items") = some (Target.mk [] [] (bytes "/items")) := by decide
  refine ⟨by decide, hparse, by rw [hparse]; rfl, ?_, ?_⟩
  · unfold proxy
    rw [hparse]
    rfl
  · intro body
    unfold proxy
    rw [hparse]
    simp

/-- C7, amended. `proxy` answers 500 with body `Invalid target URL`, and does
not call `ServeHTTP`, exactly when `url.Parse` reports an error on the target
string; whenever `url.Parse` succeeds, absolute URL or not, `proxy` calls
`ServeHTTP` for the parsed target and answers no 500 itself. -/
theorem proxy_error_iff_parse_error (parse : GoString → Option Target) (targetURL : GoString)
    (c : Context) :
    (parse targetURL = none →
      proxy parse targetURL c = invalidTargetEvents targetURL c ∧
      ∀ t q, Event.serveHTTP t q ∉ proxy parse targetURL c) ∧
    (∀ target, parse targetURL = some target →
      proxy parse targetURL c = forwardEvents target c ∧
      ∀ status body, Event.respond status body ∉ proxy parse targetURL c) ∧
    ((∃ body, Event.respond 500 body ∈ proxy parse targetURL c) ↔ parse targetURL = none) ∧
    ((∃ t q, Event.serveHTTP t q ∈ proxy parse targetURL c) ↔ parse targetURL ≠ none) := by
  unfold proxy invalidTargetEvents forwardEvents
  cases h : parse targetURL with
  | none => simp
  | some t => simp

/-- C7, amended, on the route `/api -> http://backend:port`: the target
`http://backend:port/items` has an invalid port, `url.Parse` reports an error
and the request is answered with 500 without forwarding. -/
theorem proxy_error_iff_parse_error_witness :
    lookupTargetURL [Route.mk (bytes "/api") (bytes "http://backend:port")]
      (bytes "/api/items") = bytes "http://backend:port/items" ∧
    urlParse (bytes "http://backend:port/items") = none ∧
    proxy urlParse (bytes "http://backend:port/items") (sampleContext (bytes "/api/items")) =
      invalidTargetEvents (bytes "http://backend:port/items")
        (sampleContext (bytes "/api/items")) ∧
    (∀ t q, Event.serveHTTP t q ∉
      proxy urlParse (bytes "http://backend:port/items") (sampleContext (bytes "/api/items"))) :=
  have hparse : urlParse (bytes "http://backend:port/items") = none := by decide
  ⟨by decide, hparse,
    ((proxy_error_iff_parse_error urlParse (bytes "http://backend:port/items")
      (sampleContext (bytes "/api/items"))).1 hparse).1,
    ((proxy_error_iff_parse_error urlParse (bytes "http://backend:port/items")
      (sampleContext (bytes "/api/items"))).1 hparse).2⟩

/-! ## The rewrite performed by the Director -/

/-- C8. The `Director` installed by `proxy` sets the scheme, host and path of
the request URL to those of the target and changes nothing else: the query
string `URL.RawQuery`, the other URL fields and the other request fields are
those of the original request. -/
theorem Director_frame (target : Target) (request : Request) :
    (Director target request).URL.Scheme = target.Scheme ∧
    (Director target request).URL.Host = target.Host ∧
    (Director target request).URL.Path = target.Path ∧
    (Director target request).URL.RawQuery = request.URL.RawQuery ∧
    (Director target request).URL.Opaque = request.URL.Opaque ∧
    (Director target request).URL.User = request.URL.User ∧
    (Director target request).URL.RawPath = request.URL.RawPath ∧
    (Director target request).URL.OmitHost = request.URL.OmitHost ∧
    (Director target request).URL.ForceQuery = request.URL.ForceQuery ∧
    (Director target request).URL.Fragment = request.URL.Fragment ∧
    (Director target request).URL.RawFragment = request.URL.RawFragment ∧
    (Director target request).Method = request.Method ∧
    (Director target request).Proto = request.Proto ∧
    (Director target request).Header = request.Header ∧
    (Director target request).Body = request.Body ∧
    (Director target request).Host = request.Host ∧
    (Director target request).Form = request.Form ∧
    (Director target request).Trailer = request.Trailer ∧
    (Director target request).RemoteAddr = request.RemoteAddr ∧
    (Director target request).RequestURI = request.RequestURI := by
  simp [Director]

/-- C8, on a request for `/svc/orders/5?page=2` forwarded to
`https://backend.local/root/orders/5`: the query `page=2` is kept. -/
theorem Director_frame_witness :
    (Director (Target.mk (bytes "https") (bytes "backend.local") (bytes "/root/orders/5"))
      (sampleRequest (bytes "/svc/orders/5"))).URL.RawQuery = bytes "page=2" ∧
    (Director (Target.mk (bytes "https") (bytes "backend.local") (bytes "/root/orders/5"))
      (sampleRequest (bytes "/svc/orders/5"))).URL.Path = bytes "/root/orders/5" :=
  ⟨(Director_frame _ _).2.2.2.1, (Director_frame _ _).2.2.1⟩

/-! ## Routes with an empty prefix -/

theorem lookupStep_of_empty (path : GoString) (st : GoString × GoString) (r : Route)
    (h : r.Prefix = []) : lookupStep path st r = st :=
  lookupStep_of_miss path st r (fun _ => by simp [h])

theorem lookupLoop_filter_nonempty (path : GoString) (routes : List Route) :
    ∀ st : GoString × GoString,
      lookupLoop path st (routes.filter (fun r => r.Prefix != [])) =
        lookupLoop path st routes := by
  induction routes with
  | nil => intro st; rfl
  | cons a rest ih =>
    intro st
    by_cases ha : a.Prefix = []
    · have hf : (a :: rest).filter (fun r => r.Prefix != []) =
          rest.filter (fun r => r.Prefix != []) := by
        simp [List.filter_cons, ha]
      rw [hf, lookupLoop_cons, lookupStep_of_empty path st a ha]
      exact ih st
    · have hf : (a :: rest).filter (fun r => r.Prefix != []) =
          a :: rest.filter (fun r => r.Prefix != []) := by
        simp [List.filter_cons, ha]
      rw [hf, lookupLoop_cons, lookupLoop_cons]
      exact ih _

/-- C9 as stated fails: the table holds only the empty-prefix route
`"" -> http://d`, no route with a non-empty prefix matches `/x`, and
`lookupTargetURL` returns the empty string, not `http://d/x`. -/
theorem lookupTargetURL_empty_prefix_unmatched :
    Route.mk [] (bytes "http://d") ∈ [Route.mk [] (bytes "http://d")] ∧
    (Route.mk [] (bytes "http://d")).Prefix <+: bytes "/x" ∧
    (∀ r ∈ [Route.mk [] (bytes "http://d")], r.Prefix ≠ [] → ¬ r.Prefix <+: bytes "/x") ∧
    lookupTargetURL [Route.mk [] (bytes "http://d")] (bytes "/x") = [] ∧
    lookupTargetURL [Route.mk [] (bytes "http://d")] (bytes "/x") ≠
      (Route.mk [] (bytes "http://d")).Url ++ bytes "/x" := by
  decide

/-- C9, amended. A route with an empty prefix is never selected: every table
resolves every path as the table without its empty-prefix routes does; when no
route with a non-empty prefix matches the result is the empty string, also
when an empty-prefix route is present; and when one matches, the result is the
target of a route with a non-empty prefix. -/
theorem lookupTargetURL_skips_empty (routes : List Route) (path : GoString) :
    lookupTargetURL routes path =
      lookupTargetURL (routes.filter (fun r => r.Prefix != [])) path ∧
    ((∀ r ∈ routes, r.Prefix ≠ [] → ¬ r.Prefix <+: path) → lookupTargetURL routes path = []) ∧
    ((∃ r ∈ routes, r.Prefix ≠ [] ∧ r.Prefix <+: path) →
      ∃ r ∈ routes, r.Prefix ≠ [] ∧ r.Prefix <+: path ∧
        lookupTargetURL routes path = routeTarget path r) := by
  refine ⟨?_, ?_, ?_⟩
  · unfold lookupTargetURL
    rw [lookupLoop_filter_nonempty]
  · intro h
    rcases lookupTargetURL_cases routes path with
      ⟨hres, _⟩ | ⟨l₁, r, l₂, hsplit, hne, hm, _⟩
    · exact hres
    · exact absurd hm (h r (by simp [hsplit]) hne)
  · rintro ⟨r, hr, hne, hm⟩
    rcases lookupTargetURL_cases routes path with
      ⟨_, hall⟩ | ⟨l₁, r', l₂, hsplit, hne', hm', _, _, hres⟩
    · exact absurd (hall r hr hm) hne
    · exact ⟨r', by simp [hsplit], hne', hm', hres⟩

/-- C9, amended, on the table `"" -> http://d`, `/api -> http://a`: the path
`/x` is not found and `/api/x` resolves through `/api`. -/
theorem lookupTargetURL_skips_empty_witness :
    lookupTargetURL [Route.mk [] (bytes "http://d"), Route.mk (bytes "/api") (bytes "http://a")]
      (bytes "/x") = [] ∧
    lookupTargetURL [Route.mk [] (bytes "http://d"), Route.mk (bytes "/api") (bytes "http://a")]
      (bytes "/api/x") = bytes "http://a/x" :=
  ⟨(lookupTargetURL_skips_empty
      [Route.mk [] (bytes "http://d"), Route.mk (bytes "/api") (bytes "http://a")]
      (bytes "/x")).2.1 (by decide),
    by decide⟩

/-! ## The not-found sentinel -/

/-- C10. `lookupTargetURL` returns the empty string exactly when no route with
a non-empty prefix matches the path; when one matches, the result is some
route's `Url` followed by a sub-path starting with `'/'`, hence non-empty
whatever the `Url`; and `handleUrl` answers 404 exactly in the first case. -/
theorem lookupTargetURL_eq_nil_iff (routes : List Route) (path : GoString) :
    (lookupTargetURL routes path = [] ↔ ¬ ∃ r ∈ routes, r.Prefix ≠ [] ∧ r.Prefix <+: path) ∧
    ((∃ r ∈ routes, r.Prefix ≠ [] ∧ r.Prefix <+: path) →
      ∃ r ∈ routes, ∃ sub, lookupTargetURL routes path = r.Url ++ slash :: sub) ∧
    (∀ (parse : GoString → Option Target) (c : Context), c.Request.URL.Path = path →
      ((∃ body, Event.respond 404 body ∈ handleUrl routes parse c) ↔
        ¬ ∃ r ∈ routes, r.Prefix ≠ [] ∧ r.Prefix <+: path)) := by
  have hform : (∃ r ∈ routes, r.Prefix ≠ [] ∧ r.Prefix <+: path) →
      ∃ r ∈ routes, ∃ sub, lookupTargetURL routes path = r.Url ++ slash :: sub := by
    rintro ⟨r, hr, hne, hm⟩
    rcases lookupTargetURL_cases routes path with
      ⟨_, hall⟩ | ⟨l₁, r', l₂, hsplit, _, _, _, _, hres⟩
    · exact absurd (hall r hr hm) hne
    · obtain ⟨t, ht⟩ := joinSubPath_cons (path.drop r'.Prefix.length)
      exact ⟨r', by simp [hsplit], t, by rw [hres, routeTarget, ht]⟩
  have hiff : lookupTargetURL routes path = [] ↔
      ¬ ∃ r ∈ routes, r.Prefix ≠ [] ∧ r.Prefix <+: path := by
    constructor
    · intro hnil hex
      obtain ⟨r, _, sub, hres⟩ := hform hex
      rw [hnil] at hres
      simp at hres
    · intro hno
      rcases lookupTargetURL_cases routes path with
        ⟨hres, _⟩ | ⟨l₁, r, l₂, hsplit, hne, hm, _⟩
      · exact hres
      · exact absurd ⟨r, by simp [hsplit], hne, hm⟩ hno
  refine ⟨hiff, hform, ?_⟩
  intro parse c hpath
  rw [← hiff, ← hpath]
  unfold handleUrl
  by_cases hnil : lookupTargetURL routes c.Request.URL.Path = []
  · simp [hnil]
  · unfold proxy
    rcases h : parse (lookupTargetURL routes c.Request.URL.Path) with _ | t <;> simp [hnil, h]

end Gateway
